import Mathlib

/-!
Shallow embedding of the `initramfs` crate (src/lib.rs): a parser and
serializer for concatenations of "new ASCII" cpio archives.

Bytes are modelled as `Nat` (values < 256 in every buffer the code builds),
buffers as `List Nat`, and `u32` header fields as `Nat` (all header fields
are decoded from 8 hex nibbles, hence < 2^32; the one place where u32
wrap-around genuinely matters, the payload checksum accumulation, is
modelled with an explicit `% 2^32`).  Rust functions returning
`Result<T, Error>` become functions into `PResult T`, whose extra `panic`
constructor models Rust `panic!` / failed `assert!` (contract violations,
distinct from recoverable errors).
-/

/-- Mirror of `enum Error` in src/lib.rs. -/
inductive Error where
  | invalidCpioHeaderMagic : List Nat → Error
  | invalidHex : String → List Nat → Error
  | invalidAlign : Nat → Nat → Error
  | invalidChecksumNotZero : Nat → Error
  | invalidChecksum : Nat → Nat → Error
  | invalidFilenameLength : Nat → Nat → Error
  | unexpectedEof : Error
deriving DecidableEq, Repr

/-- Result of a Rust computation that may return `Err` or `panic!`. -/
inductive PResult (α : Type) where
  | ok : α → PResult α
  | error : Error → PResult α
  | panic : PResult α
deriving DecidableEq, Repr

/-- Rust's `?` operator / sequencing: errors and panics propagate. -/
def PResult.bind {α β : Type} : PResult α → (α → PResult β) → PResult β
  | .ok a, f => f a
  | .error e, _ => .error e
  | .panic, _ => .panic

theorem PResult.bind_ok {α β : Type} {x : PResult α} {f : α → PResult β} {b : β}
    (h : x.bind f = .ok b) : ∃ a, x = .ok a ∧ f a = .ok b := by
  cases x with
  | ok a => exact ⟨a, rfl, h⟩
  | error e => simp [PResult.bind] at h
  | panic => simp [PResult.bind] at h

/-- Rust `data.get(a..b)` on a slice: `Some` of the sub-slice iff the range
is in bounds (`a ≤ b ∧ b ≤ len`), `None` otherwise. -/
def listSlice (data : List Nat) (a b : Nat) : Option (List Nat) :=
  if a ≤ b ∧ b ≤ data.length then some ((data.drop a).take (b - a)) else none

theorem listSlice_le {data : List Nat} {a b : Nat} {l : List Nat}
    (h : listSlice data a b = some l) :
    a ≤ b ∧ b ≤ data.length ∧ l = (data.drop a).take (b - a) := by
  unfold listSlice at h
  split at h
  · rename_i hc
    exact ⟨hc.1, hc.2, (Option.some.injEq _ _ ▸ h).symm⟩
  · exact absurd h (by simp)

theorem listSlice_of_bounds {data : List Nat} {a b : Nat}
    (h1 : a ≤ b) (h2 : b ≤ data.length) :
    listSlice data a b = some ((data.drop a).take (b - a)) := by
  unfold listSlice
  rw [if_pos ⟨h1, h2⟩]

/-! ## Hex codec (`parse_hex_be_u32`, `to_hex_be_u32`) -/

/-- The closure `parse_hex_nibble` inside `parse_hex_be_u32`: one ASCII
byte as a hex nibble, case-insensitive; `property` and `data` are the
captured diagnostics for the error value. -/
def parseHexNibble (property : String) (data : List Nat) (byte : Nat) : PResult Nat :=
  if 48 ≤ byte ∧ byte ≤ 57 then .ok (byte - 48)          -- b'0' ..= b'9'
  else if 97 ≤ byte ∧ byte ≤ 102 then .ok (byte - 97 + 10)  -- b'a' ..= b'f'
  else if 65 ≤ byte ∧ byte ≤ 70 then .ok (byte - 65 + 10)   -- b'A' ..= b'F'
  else .error (.invalidHex property data)

/-- Rust `fn parse_hex_be_u32(property, data: [u8; 8]) -> Result<u32, Error>`.
The `[u8; 8]` argument is modelled as a list; a list that is not 8 bytes
long is unrepresentable in the Rust type, hence mapped to `panic`. -/
def parse_hex_be_u32 (property : String) (data : List Nat) : PResult Nat :=
  match data with
  | [d0, d1, d2, d3, d4, d5, d6, d7] =>
    (parseHexNibble property data d0).bind fun a =>
    (parseHexNibble property data d1).bind fun b =>
    (parseHexNibble property data d2).bind fun c =>
    (parseHexNibble property data d3).bind fun d =>
    (parseHexNibble property data d4).bind fun e =>
    (parseHexNibble property data d5).bind fun f =>
    (parseHexNibble property data d6).bind fun g =>
    (parseHexNibble property data d7).bind fun h =>
    .ok ((a <<< 28) ||| (b <<< 24) ||| (c <<< 20) ||| (d <<< 16)
          ||| (e <<< 12) ||| (f <<< 8) ||| (g <<< 4) ||| h)
  | _ => .panic

/-- One lowercase hex digit (`hex::encode` alphabet). -/
def hexDigit (n : Nat) : Nat :=
  if n < 10 then 48 + n else 87 + n

/-- Rust `fn to_hex_be_u32(data: u32) -> [u8; 8]`: `hex::encode_to_slice` of the
big-endian bytes of `data`, i.e. the 8 nibbles most-significant first. -/
def to_hex_be_u32 (data : Nat) : List Nat :=
  [hexDigit (data / 268435456 % 16), hexDigit (data / 16777216 % 16),
   hexDigit (data / 1048576 % 16), hexDigit (data / 65536 % 16),
   hexDigit (data / 4096 % 16), hexDigit (data / 256 % 16),
   hexDigit (data / 16 % 16), hexDigit (data % 16)]

/-! ## Headers -/

/-- Mirror of `enum CpioHeaderMagic`. -/
inductive CpioHeaderMagic where
  | WithoutChecksum
  | WithChecksum
deriving DecidableEq, Repr

/-- Mirror of `struct CpioHeader` (all fields `u32`, modelled as `Nat`). -/
structure CpioHeader where
  magic : CpioHeaderMagic
  ino : Nat
  mode : Nat
  uid : Nat
  gid : Nat
  nlink : Nat
  mtime : Nat
  filesize : Nat
  maj : Nat
  min : Nat
  rmaj : Nat
  rmin : Nat
  namesize : Nat
  chksum : Nat
deriving DecidableEq, Repr

/-- Mirror of `struct RawCpioHeader`: the positional 110-byte layout
(6-byte magic, thirteen 8-byte ASCII-hex fields). -/
structure RawCpioHeader where
  magic : List Nat
  ino : List Nat
  mode : List Nat
  uid : List Nat
  gid : List Nat
  nlink : List Nat
  mtime : List Nat
  filesize : List Nat
  maj : List Nat
  min : List Nat
  rmaj : List Nat
  rmin : List Nat
  namesize : List Nat
  chksum : List Nat
deriving DecidableEq, Repr

/-- Rust `RawCpioHeader::new(data: [u8; 110])`: positional slicing. -/
def RawCpioHeader.new (data : List Nat) : RawCpioHeader where
  magic := (data.drop 0).take 6
  ino := (data.drop 6).take 8
  mode := (data.drop 14).take 8
  uid := (data.drop 22).take 8
  gid := (data.drop 30).take 8
  nlink := (data.drop 38).take 8
  mtime := (data.drop 46).take 8
  filesize := (data.drop 54).take 8
  maj := (data.drop 62).take 8
  min := (data.drop 70).take 8
  rmaj := (data.drop 78).take 8
  rmin := (data.drop 86).take 8
  namesize := (data.drop 94).take 8
  chksum := (data.drop 102).take 8

/-- Rust `RawCpioHeader::write`: concatenate all fourteen fields onto `data`. -/
def RawCpioHeader.write (raw : RawCpioHeader) (data : List Nat) : List Nat :=
  data ++ raw.magic ++ raw.ino ++ raw.mode ++ raw.uid ++ raw.gid ++ raw.nlink
    ++ raw.mtime ++ raw.filesize ++ raw.maj ++ raw.min ++ raw.rmaj ++ raw.rmin
    ++ raw.namesize ++ raw.chksum

/-- ASCII bytes of `b"070701"`. -/
def magicWithoutChecksum : List Nat := [48, 55, 48, 55, 48, 49]

/-- ASCII bytes of `b"070702"`. -/
def magicWithChecksum : List Nat := [48, 55, 48, 55, 48, 50]

/-- Rust `CpioHeader::parse`: decode the magic, then the thirteen numeric fields
in source order, propagating the first error. -/
def CpioHeader.parse (header : RawCpioHeader) : PResult CpioHeader :=
  (if header.magic = magicWithoutChecksum then (.ok CpioHeaderMagic.WithoutChecksum : PResult CpioHeaderMagic)
   else if header.magic = magicWithChecksum then .ok CpioHeaderMagic.WithChecksum
   else .error (.invalidCpioHeaderMagic header.magic)).bind fun magic =>
  (parse_hex_be_u32 "ino" header.ino).bind fun ino =>
  (parse_hex_be_u32 "mode" header.mode).bind fun mode =>
  (parse_hex_be_u32 "uid" header.uid).bind fun uid =>
  (parse_hex_be_u32 "gid" header.gid).bind fun gid =>
  (parse_hex_be_u32 "nlink" header.nlink).bind fun nlink =>
  (parse_hex_be_u32 "mtime" header.mtime).bind fun mtime =>
  (parse_hex_be_u32 "filesize" header.filesize).bind fun filesize =>
  (parse_hex_be_u32 "maj" header.maj).bind fun maj =>
  (parse_hex_be_u32 "min" header.min).bind fun mn =>
  (parse_hex_be_u32 "rmaj" header.rmaj).bind fun rmaj =>
  (parse_hex_be_u32 "rmin" header.rmin).bind fun rmin =>
  (parse_hex_be_u32 "namesize" header.namesize).bind fun namesize =>
  (parse_hex_be_u32 "chksum" header.chksum).bind fun chksum =>
  .ok ⟨magic, ino, mode, uid, gid, nlink, mtime, filesize, maj, mn, rmaj, rmin,
       namesize, chksum⟩

/-- Rust `CpioHeader::to_cpio_header`: encode every field to fixed-width hex. -/
def CpioHeader.to_cpio_header (h : CpioHeader) : RawCpioHeader where
  magic := match h.magic with
    | .WithoutChecksum => magicWithoutChecksum
    | .WithChecksum => magicWithChecksum
  ino := to_hex_be_u32 h.ino
  mode := to_hex_be_u32 h.mode
  uid := to_hex_be_u32 h.uid
  gid := to_hex_be_u32 h.gid
  nlink := to_hex_be_u32 h.nlink
  mtime := to_hex_be_u32 h.mtime
  filesize := to_hex_be_u32 h.filesize
  maj := to_hex_be_u32 h.maj
  min := to_hex_be_u32 h.min
  rmaj := to_hex_be_u32 h.rmaj
  rmin := to_hex_be_u32 h.rmin
  namesize := to_hex_be_u32 h.namesize
  chksum := to_hex_be_u32 h.chksum

/-! ## Alignment helpers -/

/-- The `for (i, align) in ... .enumerate()` loop body of
`parse_align_to_4`: first non-zero byte of `l`, paired with its position
offset by `i`. -/
def findNonZero : List Nat → Nat → Option (Nat × Nat)
  | [], _ => none
  | b :: rest, i => if b ≠ 0 then some (i, b) else findNonZero rest (i + 1)

/-- Rust `fn parse_align_to_4(data, index)`: round `index` up to a multiple of
4; every byte of `data[index..new_index]` must be zero.  Rust
`data.get(index..new_index)` yields `None` when the range end is out of
bounds, and `.into_iter().flatten()` then iterates nothing, so in that
case no byte is checked at all. -/
def parse_align_to_4 (data : List Nat) (index : Nat) : PResult Nat :=
  let new_index := 4 * ((index + 3) / 4)
  match listSlice data index new_index with
  | none => .ok new_index
  | some slice =>
    match findNonZero slice 0 with
    | some (i, b) => .error (.invalidAlign (index + i) b)
    | none => .ok new_index

/-- Rust `fn write_align_to(data, align_to)`: `data.resize(new_len, 0)` with
`new_len ≥ data.len()` appends zeroes up to the alignment boundary. -/
def write_align_to (data : List Nat) (align_to : Nat) : List Nat :=
  data ++ List.replicate (align_to * ((data.length + (align_to - 1)) / align_to) - data.length) 0

/-- Rust `fn write_align_to_4(data)`. -/
def write_align_to_4 (data : List Nat) : List Nat :=
  write_align_to data 4

/-- Rust `fn parse_leading_zeroes(data, index)`: advance `index` over zero
bytes (`while let Some(0) = data.get(index)`). -/
def parse_leading_zeroes (data : List Nat) (index : Nat) : Nat :=
  if h : data.get? index = some 0 then
    parse_leading_zeroes data (index + 1)
  else
    index
termination_by data.length - index
decreasing_by
  have : index < data.length := List.get?_eq_some.mp h |>.1
  omega

/-! ## File records -/

/-- The bytes of `b"TRAILER!!!"`. -/
def trailerBytes : List Nat := [84, 82, 65, 73, 76, 69, 82, 33, 33, 33]

/-- Mirror of `struct File`. -/
structure File where
  header : CpioHeader
  filename : List Nat
  data : List Nat
deriving DecidableEq, Repr

/-- Rust `File::new(filename: String, data: Vec<u8>)`.  The filename is
modelled by its UTF-8 bytes; `filename.ends_with('/')` is equivalent to
the last byte being 47 (`'/'` is ASCII, so it can only appear as a
one-byte code point).  The `assert!` becomes the `panic` case. -/
def File.new (filename : List Nat) (data : List Nat) : PResult File :=
  if filename.getLast? = some 47 ∧ data ≠ [] then .panic
  else .ok
    { header :=
        { magic := .WithoutChecksum
          ino := 0
          mode := if filename.getLast? = some 47 then 0o40755 else 0o100644
          uid := 0
          gid := 0
          nlink := 0
          mtime := 0
          filesize := data.length
          maj := 0
          min := 1
          rmaj := 0
          rmin := 0
          namesize := filename.length + 1
          chksum := 0 }
      filename := filename
      data := data }

/-- Steps (a)-(h) of `File::parse` (everything before the `// verify
checksum` match): alignment, the 110-byte raw header, the structured
header, the null-terminated filename with its length check, the second
alignment, and the payload.  Returns `(header, filename, payload,
next_index)`.  The `assert_eq!(0, ...)` on the terminator byte is the
`panic` case (unreachable, because `take_while` stopped at a zero). -/
def File.parseRaw (data : List Nat) (index : Nat) :
    PResult (CpioHeader × List Nat × List Nat × Nat) :=
  (parse_align_to_4 data index).bind fun i1 =>
  match listSlice data i1 (i1 + 110) with
  | none => .error .unexpectedEof
  | some array =>
    (CpioHeader.parse (RawCpioHeader.new array)).bind fun header =>
    -- `data.get(index..)` is `Some` iff `index ≤ data.len()`
    if i1 + 110 ≤ data.length then
      let filename := (data.drop (i1 + 110)).takeWhile (fun b => b ≠ 0)
      let i2 := i1 + 110 + filename.length
      if filename.length + 1 ≠ header.namesize then
        .error (.invalidFilenameLength (filename.length + 1) header.namesize)
      else
        match data.get? i2 with
        | none => .error .unexpectedEof
        | some b =>
          if b = 0 then
            (parse_align_to_4 data (i2 + 1)).bind fun i3 =>
            match listSlice data i3 (i3 + header.filesize) with
            | none => .error .unexpectedEof
            | some payload => .ok (header, filename, payload, i3 + payload.length)
          else .panic
    else .error .unexpectedEof

/-- Rust `File::parse`: steps (a)-(h) and then the checksum verification (i).
The running sum accumulated by `.inspect(|&b| checksum += b as u32)` while
collecting the payload equals this left fold with wrap-around at 2^32. -/
def File.parse (data : List Nat) (index : Nat) : PResult (File × Nat) :=
  (File.parseRaw data index).bind fun (header, filename, fdata, idx) =>
  let checksum := fdata.foldl (fun c b => (c + b) % 4294967296) 0
  match header.magic with
  | .WithoutChecksum =>
    if header.chksum ≠ 0 then .error (.invalidChecksumNotZero header.chksum)
    else .ok (⟨header, filename, fdata⟩, idx)
  | .WithChecksum =>
    if header.chksum ≠ checksum then .error (.invalidChecksum header.chksum checksum)
    else .ok (⟨header, filename, fdata⟩, idx)

/-- Rust `File::write`: 4-align, raw header, filename, null terminator,
4-align, payload. -/
def File.write (f : File) (data : List Nat) : List Nat :=
  let data := write_align_to_4 data
  let data := RawCpioHeader.write (CpioHeader.to_cpio_header f.header) data
  let data := data ++ f.filename
  let data := data ++ [0]
  let data := write_align_to_4 data
  data ++ f.data

theorem parse_align_to_4_ok_bounds {data : List Nat} {index j : Nat}
    (h : parse_align_to_4 data index = .ok j) :
    j = 4 * ((index + 3) / 4) ∧ index ≤ j ∧ j < index + 4 := by
  simp only [parse_align_to_4] at h
  have hj : j = 4 * ((index + 3) / 4) := by
    split at h
    · exact (PResult.ok.injEq _ _ ▸ h).symm
    · split at h
      · simp at h
      · exact (PResult.ok.injEq _ _ ▸ h).symm
  exact ⟨hj, by omega, by omega⟩

theorem File.parseRaw_lt {data : List Nat} {index : Nat}
    {header : CpioHeader} {filename payload : List Nat} {idx : Nat}
    (h : File.parseRaw data index = .ok (header, filename, payload, idx)) :
    index < idx := by
  unfold File.parseRaw at h
  obtain ⟨i1, h1, h⟩ := PResult.bind_ok h
  have hi1 : index ≤ i1 := (parse_align_to_4_ok_bounds h1).2.1
  split at h
  · simp at h
  · obtain ⟨hd, hhd, h⟩ := PResult.bind_ok h
    dsimp only at h
    split at h
    · split at h
      · simp at h
      · split at h
        · simp at h
        · split at h
          · obtain ⟨i3, h3, h⟩ := PResult.bind_ok h
            have hi3 := (parse_align_to_4_ok_bounds h3).2.1
            split at h
            · simp at h
            · simp only [PResult.ok.injEq, Prod.mk.injEq] at h
              obtain ⟨-, -, -, h4⟩ := h
              omega
          · simp at h
    · simp at h

theorem File.parse_lt {data : List Nat} {index : Nat} {f : File} {idx : Nat}
    (h : File.parse data index = .ok (f, idx)) : index < idx := by
  unfold File.parse at h
  obtain ⟨⟨header, filename, payload, idx'⟩, h1, h⟩ := PResult.bind_ok h
  have := File.parseRaw_lt h1
  dsimp only at h
  split at h
  · split at h
    · simp at h
    · simp only [PResult.ok.injEq, Prod.mk.injEq] at h
      obtain ⟨-, h2⟩ := h
      omega
  · split at h
    · simp at h
    · simp only [PResult.ok.injEq, Prod.mk.injEq] at h
      obtain ⟨-, h2⟩ := h
      omega

/-! ## Archives -/

/-- Mirror of `struct Archive`. -/
structure Archive where
  files : List File
deriving DecidableEq, Repr

/-- Rust `Archive::new()`. -/
def Archive.new : Archive := ⟨[]⟩

/-- Rust `Archive::add_file`: panic if the last record is already the trailer,
otherwise reassign `ino` to the current record count and push. -/
def Archive.add_file (a : Archive) (file : File) : PResult Archive :=
  match a.files.getLast? with
  | some f =>
    if f.filename = trailerBytes then .panic
    else .ok ⟨a.files ++ [⟨{ file.header with ino := a.files.length }, file.filename, file.data⟩]⟩
  | none => .ok ⟨a.files ++ [⟨{ file.header with ino := a.files.length }, file.filename, file.data⟩]⟩

/-- Rust `Archive::add_trailer`: push `File::new("TRAILER!!!", vec![])`
unconditionally (no trailer check, no ino reassignment). -/
def Archive.add_trailer (a : Archive) : PResult Archive :=
  (File.new trailerBytes []).bind fun f => .ok ⟨a.files ++ [f]⟩

/-- The `while index < data.len()` loop of `Archive::parse`, with the
records accumulated so far: parse records until one is the trailer
(kept, then break) or the buffer is exhausted. -/
def Archive.parseLoop (data : List Nat) (index : Nat) (files : List File) :
    PResult (Archive × Nat) :=
  if hlt : index < data.length then
    match hf : File.parse data index with
    | .ok (file, idx) =>
      if file.filename = trailerBytes then .ok (⟨files ++ [file]⟩, idx)
      else Archive.parseLoop data idx (files ++ [file])
    | .error e => .error e
    | .panic => .panic
  else .ok (⟨files⟩, index)
termination_by data.length - index
decreasing_by
  have := File.parse_lt hf
  omega

/-- Rust `Archive::parse(data, index)`. -/
def Archive.parse (data : List Nat) (index : Nat) : PResult (Archive × Nat) :=
  Archive.parseLoop data index []

/-- Rust `Archive::write`: write every record, then pad to 4096. -/
def Archive.write (a : Archive) (data : List Nat) : List Nat :=
  write_align_to (a.files.foldl (fun d f => File.write f d) data) 4096

theorem Archive.parseLoop_ok_bound {data : List Nat} {index : Nat} {files : List File}
    {a : Archive} {idx : Nat}
    (h : Archive.parseLoop data index files = .ok (a, idx)) :
    index ≤ idx ∧ (index < data.length → index < idx) := by
  unfold Archive.parseLoop at h
  split at h
  · rename_i hlt
    split at h
    · rename_i file fidx hf
      have hfl := File.parse_lt hf
      split at h
      · simp only [PResult.ok.injEq, Prod.mk.injEq] at h
        obtain ⟨-, h2⟩ := h
        omega
      · have ih := Archive.parseLoop_ok_bound h
        omega
    · simp at h
    · simp at h
  · rename_i hge
    simp only [PResult.ok.injEq, Prod.mk.injEq] at h
    obtain ⟨-, h2⟩ := h
    omega
termination_by data.length - index
decreasing_by
  omega

theorem Archive.parse_ok_bound {data : List Nat} {index : Nat} {a : Archive} {idx : Nat}
    (h : Archive.parse data index = .ok (a, idx)) :
    index ≤ idx ∧ (index < data.length → index < idx) :=
  Archive.parseLoop_ok_bound h

/-- Rust `Archive::parse` at an index at or past the end of the buffer: the
loop body never runs, so the result is an empty archive at the same
index. -/
theorem Archive.parse_at_end {data : List Nat} {index : Nat}
    (h : data.length ≤ index) : Archive.parse data index = .ok (⟨[]⟩, index) := by
  unfold Archive.parse Archive.parseLoop
  rw [dif_neg (by omega)]

theorem parse_leading_zeroes_ge (data : List Nat) (index : Nat) :
    index ≤ parse_leading_zeroes data index := by
  unfold parse_leading_zeroes
  split
  · have := parse_leading_zeroes_ge data (index + 1)
    omega
  · exact le_refl index
termination_by data.length - index
decreasing_by
  rename_i h
  have : index < data.length := List.get?_eq_some.mp h |>.1
  omega

/-- Characterization of `parse_leading_zeroes`: it stops at the first
position that is not a zero byte (including end of buffer). -/
theorem parse_leading_zeroes_eq {data : List Nat} {index m : Nat}
    (h1 : index ≤ m)
    (h2 : ∀ j, index ≤ j → j < m → data.get? j = some 0)
    (h3 : ¬ data.get? m = some 0) :
    parse_leading_zeroes data index = m := by
  rcases Nat.eq_or_lt_of_le h1 with rfl | hlt
  · unfold parse_leading_zeroes
    rw [dif_neg h3]
  · unfold parse_leading_zeroes
    rw [dif_pos (h2 index (le_refl index) hlt)]
    exact parse_leading_zeroes_eq hlt (fun j hj1 hj2 => h2 j (by omega) hj2) h3
termination_by m - index

/-! ## Initramfs container -/

/-- Mirror of `enum MaybeRawArchive`. -/
inductive MaybeRawArchive where
  | Parsed : Archive → MaybeRawArchive
  | Raw : List Nat → MaybeRawArchive
deriving DecidableEq, Repr

/-- Mirror of `struct Initramfs`. -/
structure Initramfs where
  archives : List MaybeRawArchive
deriving DecidableEq, Repr

/-- Rust `Initramfs::new()`. -/
def Initramfs.new : Initramfs := ⟨[]⟩

/-- Rust `Initramfs::add_archive`. -/
def Initramfs.add_archive (i : Initramfs) (a : Archive) : Initramfs :=
  ⟨i.archives ++ [.Parsed a]⟩

/-- Rust `Initramfs::add_raw_archive`. -/
def Initramfs.add_raw_archive (i : Initramfs) (raw : List Nat) : Initramfs :=
  ⟨i.archives ++ [.Raw raw]⟩

/-- The `while index < initramfs.len()` loop of `Initramfs::parse`: skip
zero bytes, parse one archive, repeat. -/
def Initramfs.parseLoop (data : List Nat) (index : Nat)
    (archives : List MaybeRawArchive) : PResult Initramfs :=
  if hlt : index < data.length then
    match ha : Archive.parse data (parse_leading_zeroes data index) with
    | .ok (archive, idx) => Initramfs.parseLoop data idx (archives ++ [.Parsed archive])
    | .error e => .error e
    | .panic => .panic
  else .ok ⟨archives⟩
termination_by data.length - index
decreasing_by
  have hz := parse_leading_zeroes_ge data index
  have hb := Archive.parse_ok_bound ha
  rcases Nat.lt_or_ge (parse_leading_zeroes data index) data.length with hc | hc
  · have := hb.2 hc
    omega
  · omega

/-- Rust `Initramfs::parse`. -/
def Initramfs.parse (data : List Nat) : PResult Initramfs :=
  Initramfs.parseLoop data 0 []

/-- Rust `Initramfs::write`: write each archive (parsed or raw), then 4-align. -/
def Initramfs.write (ifs : Initramfs) (data : List Nat) : List Nat :=
  ifs.archives.foldl
    (fun data archive =>
      write_align_to_4 (match archive with
        | .Parsed a => Archive.write a data
        | .Raw raw => data ++ raw))
    data

/-! ## Hex codec lemmas -/

/-- Is `b` an ASCII hex digit (`0-9a-fA-F`)? -/
def isHexByte (b : Nat) : Bool :=
  (48 ≤ b && b ≤ 57) || (97 ≤ b && b ≤ 102) || (65 ≤ b && b ≤ 70)

/-- Numeric value of an ASCII hex digit. -/
def hexVal (b : Nat) : Nat :=
  if 48 ≤ b ∧ b ≤ 57 then b - 48
  else if 97 ≤ b ∧ b ≤ 102 then b - 97 + 10
  else b - 65 + 10

/-- Lowercase normalization of an ASCII hex digit. -/
def lowerHex (b : Nat) : Nat :=
  if 65 ≤ b ∧ b ≤ 70 then b + 32 else b

theorem parseHexNibble_ok (p : String) (d : List Nat) {b : Nat}
    (h : isHexByte b = true) : parseHexNibble p d b = .ok (hexVal b) := by
  simp only [isHexByte, Bool.or_eq_true, Bool.and_eq_true, decide_eq_true_eq] at h
  unfold parseHexNibble hexVal
  split_ifs <;> first | rfl | omega

theorem parseHexNibble_err (p : String) (d : List Nat) {b : Nat}
    (h : isHexByte b = false) : parseHexNibble p d b = .error (.invalidHex p d) := by
  simp only [isHexByte, Bool.or_eq_false_iff, Bool.and_eq_false_iff] at h
  unfold parseHexNibble
  split_ifs with h1 h2 h3
  · simp [decide_eq_false_iff_not, Decidable.not_and_iff_or_not] at h
    omega
  · simp [decide_eq_false_iff_not, Decidable.not_and_iff_or_not] at h
    omega
  · simp [decide_eq_false_iff_not, Decidable.not_and_iff_or_not] at h
    omega
  · rfl

theorem hexVal_lt {b : Nat} (h : isHexByte b = true) : hexVal b < 16 := by
  simp only [isHexByte, Bool.or_eq_true, Bool.and_eq_true, decide_eq_true_eq] at h
  unfold hexVal
  split_ifs <;> omega

theorem hexDigit_hexVal {b : Nat} (h : isHexByte b = true) :
    hexDigit (hexVal b) = lowerHex b := by
  simp only [isHexByte, Bool.or_eq_true, Bool.and_eq_true, decide_eq_true_eq] at h
  unfold hexVal hexDigit lowerHex
  split_ifs <;> omega

theorem isHexByte_hexDigit {n : Nat} (h : n < 16) : isHexByte (hexDigit n) = true := by
  unfold hexDigit isHexByte
  split_ifs <;> simp <;> omega

theorem hexVal_hexDigit {n : Nat} (h : n < 16) : hexVal (hexDigit n) = n := by
  unfold hexDigit hexVal
  split_ifs <;> omega

/-- Rust `x <<< k ||| y` is plain addition when `y` fits in the low `k` bits. -/
theorem lor_shift_add (y x k : Nat) (h : y < 2 ^ k) :
    (x <<< k) ||| y = x * 2 ^ k + y := by
  rw [Nat.shiftLeft_eq, Nat.mul_comm]
  exact (Nat.mul_add_lt_is_or h x).symm

/-- The shift-or recombination in `parse_hex_be_u32` equals the base-16
positional sum of the nibbles. -/
theorem hex_recombine {n1 n2 n3 n4 n5 n6 n7 n8 : Nat}
    (h1 : n1 < 16) (h2 : n2 < 16) (h3 : n3 < 16) (h4 : n4 < 16)
    (h5 : n5 < 16) (h6 : n6 < 16) (h7 : n7 < 16) (h8 : n8 < 16) :
    (n1 <<< 28) ||| (n2 <<< 24) ||| (n3 <<< 20) ||| (n4 <<< 16)
      ||| (n5 <<< 12) ||| (n6 <<< 8) ||| (n7 <<< 4) ||| n8
    = n1 * 268435456 + n2 * 16777216 + n3 * 1048576 + n4 * 65536
      + n5 * 4096 + n6 * 256 + n7 * 16 + n8 := by
  rw [Nat.lor_assoc, Nat.lor_assoc, Nat.lor_assoc, Nat.lor_assoc, Nat.lor_assoc,
    Nat.lor_assoc]
  rw [lor_shift_add n8 n7 4 (by omega)]
  rw [lor_shift_add _ n6 8 (by norm_num; omega)]
  rw [lor_shift_add _ n5 12 (by norm_num; omega)]
  rw [lor_shift_add _ n4 16 (by norm_num; omega)]
  rw [lor_shift_add _ n3 20 (by norm_num; omega)]
  rw [lor_shift_add _ n2 24 (by norm_num; omega)]
  rw [lor_shift_add _ n1 28 (by norm_num; omega)]
  norm_num
  ring

theorem parseHexNibble_hexDigit (p : String) (d : List Nat) (n : Nat) (h : n < 16) :
    parseHexNibble p d (hexDigit n) = .ok n := by
  rw [parseHexNibble_ok p d (isHexByte_hexDigit h), hexVal_hexDigit h]

theorem parseHexNibble_hexDigit_mod (p : String) (d : List Nat) (x : Nat) :
    parseHexNibble p d (hexDigit (x % 16)) = .ok (x % 16) :=
  parseHexNibble_hexDigit p d (x % 16) (Nat.mod_lt x (by norm_num))

/-- Decoding the encoding of any `u32` value gives the value back. -/
theorem parse_hex_to_hex (p : String) {v : Nat} (hv : v < 4294967296) :
    parse_hex_be_u32 p (to_hex_be_u32 v) = .ok v := by
  rw [to_hex_be_u32]
  simp only [parse_hex_be_u32, parseHexNibble_hexDigit_mod, PResult.bind]
  rw [hex_recombine (by omega) (by omega) (by omega) (by omega) (by omega)
    (by omega) (by omega) (by omega)]
  congr 1
  omega

/-- Decoding 8 valid hex bytes succeeds with the base-16 positional value. -/
theorem parse_hex_valid (p : String) {b1 b2 b3 b4 b5 b6 b7 b8 : Nat}
    (h1 : isHexByte b1 = true) (h2 : isHexByte b2 = true)
    (h3 : isHexByte b3 = true) (h4 : isHexByte b4 = true)
    (h5 : isHexByte b5 = true) (h6 : isHexByte b6 = true)
    (h7 : isHexByte b7 = true) (h8 : isHexByte b8 = true) :
    parse_hex_be_u32 p [b1, b2, b3, b4, b5, b6, b7, b8]
      = .ok (hexVal b1 * 268435456 + hexVal b2 * 16777216 + hexVal b3 * 1048576
          + hexVal b4 * 65536 + hexVal b5 * 4096 + hexVal b6 * 256
          + hexVal b7 * 16 + hexVal b8) := by
  simp only [parse_hex_be_u32, parseHexNibble_ok p _ h1, parseHexNibble_ok p _ h2,
    parseHexNibble_ok p _ h3, parseHexNibble_ok p _ h4, parseHexNibble_ok p _ h5,
    parseHexNibble_ok p _ h6, parseHexNibble_ok p _ h7, parseHexNibble_ok p _ h8,
    PResult.bind]
  rw [hex_recombine (hexVal_lt h1) (hexVal_lt h2) (hexVal_lt h3) (hexVal_lt h4)
    (hexVal_lt h5) (hexVal_lt h6) (hexVal_lt h7) (hexVal_lt h8)]

/-- Re-encoding the value decoded from 8 valid hex bytes lowercases them. -/
theorem to_hex_of_valid {b1 b2 b3 b4 b5 b6 b7 b8 : Nat}
    (h1 : isHexByte b1 = true) (h2 : isHexByte b2 = true)
    (h3 : isHexByte b3 = true) (h4 : isHexByte b4 = true)
    (h5 : isHexByte b5 = true) (h6 : isHexByte b6 = true)
    (h7 : isHexByte b7 = true) (h8 : isHexByte b8 = true) :
    to_hex_be_u32 (hexVal b1 * 268435456 + hexVal b2 * 16777216 + hexVal b3 * 1048576
        + hexVal b4 * 65536 + hexVal b5 * 4096 + hexVal b6 * 256
        + hexVal b7 * 16 + hexVal b8)
      = [lowerHex b1, lowerHex b2, lowerHex b3, lowerHex b4, lowerHex b5,
         lowerHex b6, lowerHex b7, lowerHex b8] := by
  have v1 := hexVal_lt h1
  have v2 := hexVal_lt h2
  have v3 := hexVal_lt h3
  have v4 := hexVal_lt h4
  have v5 := hexVal_lt h5
  have v6 := hexVal_lt h6
  have v7 := hexVal_lt h7
  have v8 := hexVal_lt h8
  unfold to_hex_be_u32
  rw [show (hexVal b1 * 268435456 + hexVal b2 * 16777216 + hexVal b3 * 1048576
      + hexVal b4 * 65536 + hexVal b5 * 4096 + hexVal b6 * 256
      + hexVal b7 * 16 + hexVal b8) / 268435456 % 16 = hexVal b1 by omega]
  rw [show (hexVal b1 * 268435456 + hexVal b2 * 16777216 + hexVal b3 * 1048576
      + hexVal b4 * 65536 + hexVal b5 * 4096 + hexVal b6 * 256
      + hexVal b7 * 16 + hexVal b8) / 16777216 % 16 = hexVal b2 by omega]
  rw [show (hexVal b1 * 268435456 + hexVal b2 * 16777216 + hexVal b3 * 1048576
      + hexVal b4 * 65536 + hexVal b5 * 4096 + hexVal b6 * 256
      + hexVal b7 * 16 + hexVal b8) / 1048576 % 16 = hexVal b3 by omega]
  rw [show (hexVal b1 * 268435456 + hexVal b2 * 16777216 + hexVal b3 * 1048576
      + hexVal b4 * 65536 + hexVal b5 * 4096 + hexVal b6 * 256
      + hexVal b7 * 16 + hexVal b8) / 65536 % 16 = hexVal b4 by omega]
  rw [show (hexVal b1 * 268435456 + hexVal b2 * 16777216 + hexVal b3 * 1048576
      + hexVal b4 * 65536 + hexVal b5 * 4096 + hexVal b6 * 256
      + hexVal b7 * 16 + hexVal b8) / 4096 % 16 = hexVal b5 by omega]
  rw [show (hexVal b1 * 268435456 + hexVal b2 * 16777216 + hexVal b3 * 1048576
      + hexVal b4 * 65536 + hexVal b5 * 4096 + hexVal b6 * 256
      + hexVal b7 * 16 + hexVal b8) / 256 % 16 = hexVal b6 by omega]
  rw [show (hexVal b1 * 268435456 + hexVal b2 * 16777216 + hexVal b3 * 1048576
      + hexVal b4 * 65536 + hexVal b5 * 4096 + hexVal b6 * 256
      + hexVal b7 * 16 + hexVal b8) / 16 % 16 = hexVal b7 by omega]
  rw [show (hexVal b1 * 268435456 + hexVal b2 * 16777216 + hexVal b3 * 1048576
      + hexVal b4 * 65536 + hexVal b5 * 4096 + hexVal b6 * 256
      + hexVal b7 * 16 + hexVal b8) % 16 = hexVal b8 by omega]
  rw [hexDigit_hexVal h1, hexDigit_hexVal h2, hexDigit_hexVal h3, hexDigit_hexVal h4,
    hexDigit_hexVal h5, hexDigit_hexVal h6, hexDigit_hexVal h7, hexDigit_hexVal h8]

/-- Decoding fails with `InvalidHex` as soon as any byte is invalid. -/
theorem parse_hex_invalid (p : String) {b1 b2 b3 b4 b5 b6 b7 b8 : Nat}
    (h : ¬(isHexByte b1 = true ∧ isHexByte b2 = true ∧ isHexByte b3 = true
        ∧ isHexByte b4 = true ∧ isHexByte b5 = true ∧ isHexByte b6 = true
        ∧ isHexByte b7 = true ∧ isHexByte b8 = true)) :
    parse_hex_be_u32 p [b1, b2, b3, b4, b5, b6, b7, b8]
      = .error (.invalidHex p [b1, b2, b3, b4, b5, b6, b7, b8]) := by
  simp only [parse_hex_be_u32]
  by_cases c1 : isHexByte b1 = true
  case neg =>
    rw [parseHexNibble_err p _ (Bool.not_eq_true _ ▸ c1)]
    rfl
  case pos =>
  rw [parseHexNibble_ok p _ c1]
  simp only [PResult.bind]
  by_cases c2 : isHexByte b2 = true
  case neg =>
    rw [parseHexNibble_err p _ (Bool.not_eq_true _ ▸ c2)]
  case pos =>
  rw [parseHexNibble_ok p _ c2]
  simp only [PResult.bind]
  by_cases c3 : isHexByte b3 = true
  case neg =>
    rw [parseHexNibble_err p _ (Bool.not_eq_true _ ▸ c3)]
  case pos =>
  rw [parseHexNibble_ok p _ c3]
  simp only [PResult.bind]
  by_cases c4 : isHexByte b4 = true
  case neg =>
    rw [parseHexNibble_err p _ (Bool.not_eq_true _ ▸ c4)]
  case pos =>
  rw [parseHexNibble_ok p _ c4]
  simp only [PResult.bind]
  by_cases c5 : isHexByte b5 = true
  case neg =>
    rw [parseHexNibble_err p _ (Bool.not_eq_true _ ▸ c5)]
  case pos =>
  rw [parseHexNibble_ok p _ c5]
  simp only [PResult.bind]
  by_cases c6 : isHexByte b6 = true
  case neg =>
    rw [parseHexNibble_err p _ (Bool.not_eq_true _ ▸ c6)]
  case pos =>
  rw [parseHexNibble_ok p _ c6]
  simp only [PResult.bind]
  by_cases c7 : isHexByte b7 = true
  case neg =>
    rw [parseHexNibble_err p _ (Bool.not_eq_true _ ▸ c7)]
  case pos =>
  rw [parseHexNibble_ok p _ c7]
  simp only [PResult.bind]
  by_cases c8 : isHexByte b8 = true
  case neg =>
    rw [parseHexNibble_err p _ (Bool.not_eq_true _ ▸ c8)]
  case pos =>
  exact absurd ⟨c1, c2, c3, c4, c5, c6, c7, c8⟩ h

/-- Every byte of an encoded `u32` is a lowercase hex character. -/
theorem to_hex_lower {v : Nat} (hv : v < 4294967296) :
    ∀ b ∈ to_hex_be_u32 v, (48 ≤ b ∧ b ≤ 57) ∨ (97 ≤ b ∧ b ≤ 102) := by
  have key : ∀ n, n < 16 → (48 ≤ hexDigit n ∧ hexDigit n ≤ 57)
      ∨ (97 ≤ hexDigit n ∧ hexDigit n ≤ 102) := by
    intro n hn
    unfold hexDigit
    split_ifs <;> omega
  intro b hb
  simp only [to_hex_be_u32, List.mem_cons, List.not_mem_nil, or_false] at hb
  rcases hb with rfl | rfl | rfl | rfl | rfl | rfl | rfl | rfl <;>
    exact key _ (by omega)

/-! ## Checksum, alignment and header lemmas -/

/-- The wrapping left fold used for the payload checksum equals the plain
sum modulo 2^32. -/
theorem checksum_foldl_eq (l : List Nat) (c : Nat) (hc : c < 4294967296) :
    l.foldl (fun c b => (c + b) % 4294967296) c = (c + l.sum) % 4294967296 := by
  induction l generalizing c with
  | nil => simpa using (Nat.mod_eq_of_lt hc).symm
  | cons b t ih =>
    simp only [List.foldl_cons, List.sum_cons]
    rw [ih _ (Nat.mod_lt _ (by norm_num))]
    rw [Nat.mod_add_mod]
    congr 1
    omega

theorem findNonZero_none {l : List Nat} (s : Nat) (h : ∀ b ∈ l, b = 0) :
    findNonZero l s = none := by
  induction l generalizing s with
  | nil => rfl
  | cons a t ih =>
    unfold findNonZero
    rw [if_neg (by simpa using h a (by simp))]
    exact ih _ (fun b hb => h b (by simp [hb]))

theorem findNonZero_some {l : List Nat} (s : Nat) {i v : Nat}
    (hget : l.get? i = some v) (hv : v ≠ 0)
    (hzero : ∀ k, k < i → l.get? k = some 0) :
    findNonZero l s = some (s + i, v) := by
  induction l generalizing i s with
  | nil => simp at hget
  | cons a t ih =>
    cases i with
    | zero =>
      simp only [List.get?] at hget
      have hav : a = v := by injection hget
      subst hav
      unfold findNonZero
      rw [if_pos hv]
      simp
    | succ j =>
      have ha : a = 0 := by simpa using hzero 0 (Nat.succ_pos j)
      unfold findNonZero
      rw [if_neg (by simp [ha])]
      have := ih (s + 1) (by simpa using hget)
        (fun k hk => by simpa using hzero (k + 1) (by omega))
      rw [this]
      have he : s + 1 + j = s + (j + 1) := by omega
      rw [he]

/-- When `index` is already 4-aligned, the padding check is trivially
satisfied (an empty byte range is inspected). -/
theorem parse_align_to_4_aligned {data : List Nat} {index : Nat}
    (h : index % 4 = 0) : parse_align_to_4 data index = .ok index := by
  have h4 : 4 * ((index + 3) / 4) = index := by omega
  by_cases hle : index ≤ data.length
  · have hslice : listSlice data index index = some [] := by
      unfold listSlice
      rw [if_pos ⟨le_refl _, hle⟩]
      simp
    simp only [parse_align_to_4, h4, hslice]
    rfl
  · have hslice : listSlice data index index = none := by
      unfold listSlice
      rw [if_neg (by omega)]
    simp only [parse_align_to_4, h4, hslice]

/-- The in-bounds, all-zero case of `parse_align_to_4`. -/
theorem parse_align_to_4_ok_of_zeros {data : List Nat} {index m : Nat}
    (hm : m = 4 * ((index + 3) / 4)) (hle : m ≤ data.length)
    (hz : ∀ j, index ≤ j → j < m → data.get? j = some 0) :
    parse_align_to_4 data index = .ok m := by
  have hslice : listSlice data index m = some ((data.drop index).take (m - index)) :=
    listSlice_of_bounds (by omega) hle
  have hfnz : findNonZero ((data.drop index).take (m - index)) 0 = none := by
    apply findNonZero_none
    intro b hb
    rw [List.mem_iff_get?] at hb
    obtain ⟨k, hk⟩ := hb
    simp only [List.get?_eq_getElem?, List.getElem?_take, List.getElem?_drop] at hk
    split at hk
    · rename_i hklt
      have hz' := hz (index + k) (by omega) (by omega)
      rw [List.get?_eq_getElem?] at hz'
      rw [hz'] at hk
      exact (Option.some.inj hk).symm
    · simp at hk
  rw [hm] at hslice hfnz
  simp only [parse_align_to_4, hslice, hfnz]
  rw [hm]

/-- The in-bounds case of `parse_align_to_4` with a first non-zero byte:
the error names the absolute index and value of that byte. -/
theorem parse_align_to_4_err_of_nonzero {data : List Nat} {index m j v : Nat}
    (hm : m = 4 * ((index + 3) / 4)) (hle : m ≤ data.length)
    (hj1 : index ≤ j) (hj2 : j < m) (hget : data.get? j = some v) (hv : v ≠ 0)
    (hzero : ∀ k, index ≤ k → k < j → data.get? k = some 0) :
    parse_align_to_4 data index = .error (.invalidAlign j v) := by
  have hslice : listSlice data index m = some ((data.drop index).take (m - index)) :=
    listSlice_of_bounds (by omega) hle
  have hget' : ((data.drop index).take (m - index)).get? (j - index) = some v := by
    simp only [List.get?_eq_getElem?, List.getElem?_take, List.getElem?_drop]
    rw [if_pos (by omega), show index + (j - index) = j by omega]
    rw [← List.get?_eq_getElem?]
    exact hget
  have hzero' : ∀ k, k < j - index →
      ((data.drop index).take (m - index)).get? k = some 0 := by
    intro k hk
    simp only [List.get?_eq_getElem?, List.getElem?_take, List.getElem?_drop]
    rw [if_pos (by omega)]
    have := hzero (index + k) (by omega) (by omega)
    rw [List.get?_eq_getElem?] at this
    exact this
  have hfnz : findNonZero ((data.drop index).take (m - index)) 0
      = some (0 + (j - index), v) := findNonZero_some 0 hget' hv hzero'
  rw [hm] at hslice hfnz
  simp only [parse_align_to_4, hslice, hfnz]
  rw [show index + (0 + (j - index)) = j from by omega]

/-- The out-of-bounds case: when the aligned offset lies past the end of
the buffer, `data.get(index..new_index)` is `None` and no byte is
checked at all. -/
theorem parse_align_to_4_oob {data : List Nat} {index : Nat}
    (h : data.length < 4 * ((index + 3) / 4)) :
    parse_align_to_4 data index = .ok (4 * ((index + 3) / 4)) := by
  have hslice : listSlice data index (4 * ((index + 3) / 4)) = none := by
    unfold listSlice
    rw [if_neg (by omega)]
  simp only [parse_align_to_4, hslice]

theorem CpioHeader.parse_ok_magic {raw : RawCpioHeader} {h : CpioHeader}
    (hp : CpioHeader.parse raw = .ok h) :
    (raw.magic = magicWithoutChecksum ∧ h.magic = .WithoutChecksum)
    ∨ (raw.magic = magicWithChecksum ∧ h.magic = .WithChecksum) := by
  unfold CpioHeader.parse at hp
  obtain ⟨m, hm, hp⟩ := PResult.bind_ok hp
  obtain ⟨ino, _, hp⟩ := PResult.bind_ok hp
  obtain ⟨mode, _, hp⟩ := PResult.bind_ok hp
  obtain ⟨uid, _, hp⟩ := PResult.bind_ok hp
  obtain ⟨gid, _, hp⟩ := PResult.bind_ok hp
  obtain ⟨nlink, _, hp⟩ := PResult.bind_ok hp
  obtain ⟨mtime, _, hp⟩ := PResult.bind_ok hp
  obtain ⟨filesize, _, hp⟩ := PResult.bind_ok hp
  obtain ⟨maj, _, hp⟩ := PResult.bind_ok hp
  obtain ⟨mn, _, hp⟩ := PResult.bind_ok hp
  obtain ⟨rmaj, _, hp⟩ := PResult.bind_ok hp
  obtain ⟨rmin, _, hp⟩ := PResult.bind_ok hp
  obtain ⟨namesize, _, hp⟩ := PResult.bind_ok hp
  obtain ⟨chksum, _, hp⟩ := PResult.bind_ok hp
  rw [PResult.ok.injEq] at hp
  have hmagic : h.magic = m := by rw [← hp]
  split_ifs at hm with h1 h2
  · exact Or.inl ⟨h1, by rw [hmagic, ← PResult.ok.injEq]; exact hm.symm⟩
  · exact Or.inr ⟨h2, by rw [hmagic, ← PResult.ok.injEq]; exact hm.symm⟩

theorem CpioHeader.parse_bad_magic {raw : RawCpioHeader}
    (h1 : raw.magic ≠ magicWithoutChecksum) (h2 : raw.magic ≠ magicWithChecksum) :
    CpioHeader.parse raw = .error (.invalidCpioHeaderMagic raw.magic) := by
  unfold CpioHeader.parse
  rw [if_neg h1, if_neg h2]
  rfl

/-! ## Write-side alignment lemmas and concrete values -/

set_option maxRecDepth 8000

theorem write_align_to_4_eq {data : List Nat} (h : data.length % 4 = 0) :
    write_align_to_4 data = data := by
  unfold write_align_to_4 write_align_to
  rw [show 4 * ((data.length + (4 - 1)) / 4) - data.length = 0 from by omega]
  simp

theorem write_align_to_4096_eq {data : List Nat} (h : data.length % 4096 = 0) :
    write_align_to data 4096 = data := by
  unfold write_align_to
  rw [show 4096 * ((data.length + (4096 - 1)) / 4096) - data.length = 0 from by omega]
  simp

theorem write_align_to_4_append {data X : List Nat} (h : data.length % 4 = 0) :
    write_align_to_4 (data ++ X) = data ++ write_align_to_4 X := by
  unfold write_align_to_4 write_align_to
  rw [List.length_append, List.append_assoc]
  rw [show 4 * ((data.length + X.length + (4 - 1)) / 4) - (data.length + X.length)
    = 4 * ((X.length + (4 - 1)) / 4) - X.length from by omega]

theorem write_align_to_4096_append {data X : List Nat} (h : data.length % 4096 = 0) :
    write_align_to (data ++ X) 4096 = data ++ write_align_to X 4096 := by
  unfold write_align_to
  rw [List.length_append, List.append_assoc]
  rw [show 4096 * ((data.length + X.length + (4096 - 1)) / 4096) - (data.length + X.length)
    = 4096 * ((X.length + (4096 - 1)) / 4096) - X.length from by omega]

/-- Rust `File::write` onto a 4-aligned buffer appends exactly the bytes it
would produce on an empty buffer. -/
theorem File.write_append (f : File) {data : List Nat} (h : data.length % 4 = 0) :
    File.write f data = data ++ File.write f [] := by
  unfold File.write RawCpioHeader.write
  rw [write_align_to_4_eq h]
  rw [show write_align_to_4 [] = [] from rfl]
  simp only [List.nil_append, List.append_assoc]
  rw [write_align_to_4_append h]
  simp only [List.append_assoc]

/-- The `File` value produced by `File::new("TRAILER!!!", vec![])`. -/
def trailerFile : File :=
  ⟨⟨.WithoutChecksum, 0, 0o100644, 0, 0, 0, 0, 0, 0, 1, 0, 0, 11, 0⟩, trailerBytes, []⟩

theorem File.new_trailer : File.new trailerBytes [] = .ok trailerFile := by decide

/-- The 124 bytes `File::write` emits for the trailer record. -/
def trailerRecord : List Nat := File.write trailerFile []

theorem trailerRecord_length : trailerRecord.length = 124 := by decide

/-- Parsing at a 4-aligned offset where the serialized trailer record
begins yields `trailerFile` and advances by exactly 124 bytes, regardless
of what precedes or follows. -/
theorem File.parse_trailer_record_at (xs rest : List Nat) (h4 : xs.length % 4 = 0) :
    File.parse (xs ++ (trailerRecord ++ rest)) xs.length
      = .ok (trailerFile, xs.length + 124) := by
  have hlen : (xs ++ (trailerRecord ++ rest)).length
      = xs.length + (124 + rest.length) := by
    simp [List.length_append, trailerRecord_length]
  have hdrop : (xs ++ (trailerRecord ++ rest)).drop xs.length = trailerRecord ++ rest :=
    List.drop_left _ _
  have ha : parse_align_to_4 (xs ++ (trailerRecord ++ rest)) xs.length = .ok xs.length :=
    parse_align_to_4_aligned h4
  have hsliceH : listSlice (xs ++ (trailerRecord ++ rest)) xs.length (xs.length + 110)
      = some (trailerRecord.take 110) := by
    rw [listSlice_of_bounds (by omega) (by omega)]
    rw [hdrop, show xs.length + 110 - xs.length = 110 from by omega]
    rw [List.take_append_of_le_length (by rw [trailerRecord_length]; omega)]
  have hH : CpioHeader.parse (RawCpioHeader.new (trailerRecord.take 110))
      = .ok trailerFile.header := by decide
  have hdrop110 : (xs ++ (trailerRecord ++ rest)).drop (xs.length + 110)
      = trailerRecord.drop 110 ++ rest := by
    rw [← List.drop_drop, hdrop,
      List.drop_append_of_le_length (by rw [trailerRecord_length]; omega)]
  have hfn : ((xs ++ (trailerRecord ++ rest)).drop (xs.length + 110)).takeWhile
      (fun b => b ≠ 0) = trailerBytes := by
    rw [hdrop110]
    rw [show trailerRecord.drop 110 = [84, 82, 65, 73, 76, 69, 82, 33, 33, 33, 0, 0, 0, 0]
      from by decide]
    norm_num [List.takeWhile_cons, trailerBytes]
  have hget0 : (xs ++ (trailerRecord ++ rest)).get? (xs.length + 120) = some 0 := by
    rw [List.get?_eq_getElem?, List.getElem?_append_right (by omega),
      show xs.length + 120 - xs.length = 120 from by omega,
      List.getElem?_append_left (by rw [trailerRecord_length]; omega)]
    decide
  have halign2 : parse_align_to_4 (xs ++ (trailerRecord ++ rest)) (xs.length + 121)
      = .ok (xs.length + 124) := by
    apply parse_align_to_4_ok_of_zeros (by omega) (by omega)
    intro j hj1 hj2
    rw [List.get?_eq_getElem?, List.getElem?_append_right (by omega),
      List.getElem?_append_left (by rw [trailerRecord_length]; omega)]
    have hc : j - xs.length = 121 ∨ j - xs.length = 122 ∨ j - xs.length = 123 := by omega
    rcases hc with hc | hc | hc <;> rw [hc] <;> decide
  have hpay : listSlice (xs ++ (trailerRecord ++ rest)) (xs.length + 124)
      (xs.length + 124 + trailerFile.header.filesize) = some [] := by
    rw [show trailerFile.header.filesize = 0 from rfl]
    rw [listSlice_of_bounds (by omega) (by omega)]
    simp
  unfold File.parse File.parseRaw
  rw [ha]
  simp only [PResult.bind]
  rw [hsliceH]
  simp only [hH, PResult.bind]
  rw [if_pos (show xs.length + 110 ≤ (xs ++ (trailerRecord ++ rest)).length from by omega)]
  simp only [hfn]
  rw [show trailerBytes.length = 10 from rfl]
  rw [if_neg (show ¬(10 + 1 ≠ trailerFile.header.namesize) from by decide)]
  rw [show xs.length + 110 + 10 = xs.length + 120 from by omega]
  rw [hget0]
  simp only [if_true]
  rw [show xs.length + 120 + 1 = xs.length + 121 from by omega]
  rw [halign2]
  simp only [PResult.bind]
  rw [hpay]
  simp only [List.length_nil, PResult.bind]
  simp [trailerFile]

/-- Rust `Archive::parse` at a 4-aligned offset where a serialized trailer
record begins: one record is parsed and the loop breaks at the trailer. -/
theorem Archive.parse_single_trailer_at (xs rest : List Nat) (h4 : xs.length % 4 = 0) :
    Archive.parse (xs ++ (trailerRecord ++ rest)) xs.length
      = .ok (⟨[trailerFile]⟩, xs.length + 124) := by
  unfold Archive.parse
  rw [Archive.parseLoop]
  rw [dif_pos (show xs.length < (xs ++ (trailerRecord ++ rest)).length from by
    simp [List.length_append, trailerRecord_length])]
  rw [File.parse_trailer_record_at xs rest h4]
  rfl

/-- The single-archive image: one trailer record, zero-padded to 4096. -/
def buf1 : List Nat := Archive.write ⟨[trailerFile]⟩ []

theorem buf1_eq : buf1 = trailerRecord ++ List.replicate 3972 0 := by
  show write_align_to (File.write trailerFile []) 4096 = _
  unfold write_align_to
  rw [show (File.write trailerFile []).length = 124 from trailerRecord_length]
  rw [show 4096 * ((124 + (4096 - 1)) / 4096) - 124 = 3972 from by norm_num]
  rfl

theorem buf1_length : buf1.length = 4096 := by
  rw [buf1_eq, List.length_append, trailerRecord_length, List.length_replicate]

theorem buf1_get_zero {j : Nat} (h1 : 124 ≤ j) (h2 : j < 4096) :
    buf1.get? j = some 0 := by
  rw [buf1_eq, List.get?_eq_getElem?,
    List.getElem?_append_right (by rw [trailerRecord_length]; omega),
    trailerRecord_length]
  exact List.getElem?_replicate_of_lt (by omega)

/-- The two-archive image: `buf1` concatenated with itself. -/
def buf2 : List Nat := buf1 ++ buf1

theorem buf2_length : buf2.length = 8192 := by
  show (buf1 ++ buf1).length = 8192
  rw [List.length_append, buf1_length]

/-- The `Initramfs::parse` loop on an all-zero tail: the zero skip
reaches the end of the buffer, `Archive::parse` there returns an empty
archive, and the loop appends it and stops. -/
theorem Initramfs.parseLoop_zeros {data : List Nat} {index : Nat}
    (acc : List MaybeRawArchive) (h1 : index < data.length)
    (hz : ∀ j, index ≤ j → j < data.length → data.get? j = some 0) :
    Initramfs.parseLoop data index acc = .ok ⟨acc ++ [.Parsed ⟨[]⟩]⟩ := by
  have hpls : parse_leading_zeroes data index = data.length :=
    parse_leading_zeroes_eq (by omega) hz
      (by rw [List.get?_eq_getElem?, List.getElem?_eq_none (le_refl _)]; simp)
  rw [Initramfs.parseLoop]
  rw [dif_pos h1, hpls, Archive.parse_at_end (le_refl _)]
  show Initramfs.parseLoop data data.length (acc ++ [.Parsed ⟨[]⟩]) = _
  rw [Initramfs.parseLoop]
  rw [dif_neg (by omega)]

theorem archive_parse_buf1 : Archive.parse buf1 0 = .ok (⟨[trailerFile]⟩, 124) := by
  have h := Archive.parse_single_trailer_at [] (List.replicate 3972 0) (by norm_num)
  rw [List.nil_append, List.length_nil, Nat.zero_add] at h
  rw [buf1_eq]
  exact h

/-- Parse result of `buf1`: the trailer archive, then — because the
trailing zero padding is consumed by `parse_leading_zeroes` and
`Archive::parse` at end of buffer yields an empty archive — a second,
empty parsed archive. -/
theorem initramfs_parse_buf1 :
    Initramfs.parse buf1 = .ok ⟨[.Parsed ⟨[trailerFile]⟩, .Parsed ⟨[]⟩]⟩ := by
  unfold Initramfs.parse
  rw [Initramfs.parseLoop]
  rw [dif_pos (show 0 < buf1.length from by rw [buf1_length]; norm_num)]
  rw [show parse_leading_zeroes buf1 0 = 0 from parse_leading_zeroes_eq (le_refl 0)
    (fun j hj1 hj2 => absurd hj2 (by omega))
    (by rw [buf1_eq]; intro hc; rw [List.get?_eq_getElem?] at hc;
        rw [List.getElem?_append_left (by rw [trailerRecord_length]; omega)] at hc;
        rw [show trailerRecord[0]? = some 48 from by decide] at hc;
        simp at hc)]
  rw [archive_parse_buf1]
  show Initramfs.parseLoop buf1 124 [.Parsed ⟨[trailerFile]⟩] = _
  rw [Initramfs.parseLoop_zeros _ (by rw [buf1_length]; norm_num)
    (fun j hj1 hj2 => buf1_get_zero hj1 (by rw [buf1_length] at hj2; omega))]
  rfl

theorem initramfs_write_buf1 :
    Initramfs.write ⟨[.Parsed ⟨[trailerFile]⟩, .Parsed ⟨[]⟩]⟩ [] = buf1 := by
  have h1 : write_align_to_4 buf1 = buf1 := write_align_to_4_eq (by rw [buf1_length])
  have h2 : write_align_to buf1 4096 = buf1 :=
    write_align_to_4096_eq (by rw [buf1_length])
  have e1 : Archive.write ⟨[trailerFile]⟩ ([] : List Nat) = buf1 := rfl
  have e2 : ∀ d : List Nat, Archive.write ⟨[]⟩ d = write_align_to d 4096 :=
    fun d => rfl
  unfold Initramfs.write
  simp only [List.foldl_cons, List.foldl_nil]
  rw [e1, h1, e2, h2, h1]

theorem buf2_eq_assoc : buf2 = trailerRecord ++ (List.replicate 3972 0 ++ buf1) := by
  show buf1 ++ buf1 = _
  rw [buf1_eq]
  simp only [List.append_assoc]

theorem buf2_eq_mid : buf2 = buf1 ++ (trailerRecord ++ List.replicate 3972 0) := by
  show buf1 ++ buf1 = _
  rw [buf1_eq]

theorem buf1_get_48 : buf1[0]? = some 48 := by
  rw [buf1_eq, List.getElem?_append_left (by rw [trailerRecord_length]; omega)]
  decide

theorem buf2_get_zero_mid {j : Nat} (h1 : 124 ≤ j) (h2 : j < 4096) :
    buf2.get? j = some 0 := by
  show (buf1 ++ buf1).get? j = some 0
  rw [List.get?_eq_getElem?, List.getElem?_append_left (by rw [buf1_length]; omega)]
  have := buf1_get_zero h1 h2
  rw [List.get?_eq_getElem?] at this
  exact this

theorem buf2_get_zero_end {j : Nat} (h1 : 4220 ≤ j) (h2 : j < 8192) :
    buf2.get? j = some 0 := by
  show (buf1 ++ buf1).get? j = some 0
  rw [List.get?_eq_getElem?, List.getElem?_append_right (by rw [buf1_length]; omega),
    buf1_length]
  have := buf1_get_zero (show 124 ≤ j - 4096 from by omega)
    (show j - 4096 < 4096 from by omega)
  rw [List.get?_eq_getElem?] at this
  exact this

theorem initramfs_parse_buf2 :
    Initramfs.parse buf2
      = .ok ⟨[.Parsed ⟨[trailerFile]⟩, .Parsed ⟨[trailerFile]⟩, .Parsed ⟨[]⟩]⟩ := by
  unfold Initramfs.parse
  rw [Initramfs.parseLoop]
  rw [dif_pos (show 0 < buf2.length from by rw [buf2_length]; norm_num)]
  rw [show parse_leading_zeroes buf2 0 = 0 from parse_leading_zeroes_eq (le_refl 0)
    (fun j hj1 hj2 => absurd hj2 (by omega))
    (by show ¬(buf1 ++ buf1).get? 0 = some 0
        rw [List.get?_eq_getElem?,
          List.getElem?_append_left (by rw [buf1_length]; omega), buf1_get_48]
        simp)]
  rw [show Archive.parse buf2 0 = .ok (⟨[trailerFile]⟩, 124) from by
    have h := Archive.parse_single_trailer_at [] (List.replicate 3972 0 ++ buf1) (by norm_num)
    rw [List.nil_append, List.length_nil, Nat.zero_add] at h
    rw [buf2_eq_assoc]
    exact h]
  show Initramfs.parseLoop buf2 124 [.Parsed ⟨[trailerFile]⟩] = _
  rw [Initramfs.parseLoop]
  rw [dif_pos (show 124 < buf2.length from by rw [buf2_length]; norm_num)]
  rw [show parse_leading_zeroes buf2 124 = 4096 from parse_leading_zeroes_eq (by omega)
    (fun j hj1 hj2 => buf2_get_zero_mid hj1 hj2)
    (by show ¬(buf1 ++ buf1).get? 4096 = some 0
        rw [List.get?_eq_getElem?,
          List.getElem?_append_right (by rw [buf1_length]), buf1_length,
          Nat.sub_self, buf1_get_48]
        simp)]
  rw [show Archive.parse buf2 4096 = .ok (⟨[trailerFile]⟩, 4220) from by
    have h := Archive.parse_single_trailer_at buf1 (List.replicate 3972 0)
      (by rw [buf1_length])
    rw [buf1_length] at h
    rw [buf2_eq_mid]
    exact h]
  show Initramfs.parseLoop buf2 4220
    [.Parsed ⟨[trailerFile]⟩, .Parsed ⟨[trailerFile]⟩] = _
  rw [Initramfs.parseLoop_zeros _ (by rw [buf2_length]; norm_num)
    (fun j hj1 hj2 => buf2_get_zero_end hj1 (by rw [buf2_length] at hj2; omega))]
  rfl

theorem initramfs_write_buf2 :
    Initramfs.write ⟨[.Parsed ⟨[trailerFile]⟩, .Parsed ⟨[trailerFile]⟩, .Parsed ⟨[]⟩]⟩ []
      = buf2 := by
  have h41 : write_align_to_4 buf1 = buf1 := write_align_to_4_eq (by rw [buf1_length])
  have h42 : write_align_to_4 buf2 = buf2 := write_align_to_4_eq (by rw [buf2_length])
  have h2 : write_align_to buf2 4096 = buf2 :=
    write_align_to_4096_eq (by rw [buf2_length])
  have e1 : Archive.write ⟨[trailerFile]⟩ ([] : List Nat) = buf1 := rfl
  have e2 : ∀ d : List Nat, Archive.write ⟨[]⟩ d = write_align_to d 4096 :=
    fun d => rfl
  have e3 : ∀ d : List Nat, Archive.write ⟨[trailerFile]⟩ d
      = write_align_to (File.write trailerFile d) 4096 := fun d => rfl
  have e4 : File.write trailerFile ([] : List Nat) = trailerRecord := rfl
  have e5 : write_align_to trailerRecord 4096 = buf1 := rfl
  have e6 : buf1 ++ buf1 = buf2 := rfl
  unfold Initramfs.write
  simp only [List.foldl_cons, List.foldl_nil]
  rw [e1, h41, e3,
    File.write_append trailerFile (show buf1.length % 4 = 0 from by rw [buf1_length]),
    e4,
    write_align_to_4096_append (show buf1.length % 4096 = 0 from by rw [buf1_length]),
    e5, e6, h42, e2, h2, h42]

theorem initramfs_parse_zeros4 :
    Initramfs.parse [0, 0, 0, 0] = .ok ⟨[.Parsed ⟨[]⟩]⟩ := by
  unfold Initramfs.parse
  rw [Initramfs.parseLoop_zeros [] (by norm_num)
    (by intro j hj1 hj2
        have hj : j < 4 := by simpa using hj2
        interval_cases j <;> rfl)]
  rfl

/-- Structure of the serialized trailer record: 110-byte raw header, the
10-byte name plus its null terminator, and 3 zero bytes of padding up to
the 4-byte boundary at 124. -/
theorem trailerRecord_struct :
    trailerRecord = RawCpioHeader.write (CpioHeader.to_cpio_header trailerFile.header) []
      ++ (trailerBytes ++ [0]) ++ List.replicate 3 0 := by decide

theorem rawHeader_write_length :
    (RawCpioHeader.write (CpioHeader.to_cpio_header trailerFile.header) []).length
      = 110 := by decide

/-- A 124-byte buffer whose record starts with the unknown magic
`"070703"` (the rest is ASCII zeroes and padding). -/
def buf070703 : List Nat :=
  [48, 55, 48, 55, 48, 51] ++ List.replicate 104 48 ++ List.replicate 14 0

/-- A caller-constructed file record with a deliberately nonzero `ino`. -/
def c7FileA : File :=
  ⟨⟨.WithoutChecksum, 7, 0o100644, 0, 0, 0, 0, 0, 0, 1, 0, 0, 2, 0⟩, [97], []⟩

/-- A second caller-constructed record with another nonzero `ino`. -/
def c7FileB : File :=
  ⟨⟨.WithoutChecksum, 9, 0o100644, 0, 0, 0, 0, 0, 0, 1, 0, 0, 2, 0⟩, [98], []⟩

/-! ## Claim theorems -/

/-- C1 (amended): the round-trip law `write (parse b) = b` holds for
canonical serializer-produced images — verified for a single-archive
image (`buf1`, 4096 bytes) and a two-archive image (`buf2`, 8192 bytes) —
but not for arbitrary inter-archive zero padding (see the
counterexample). -/
theorem C1_round_trip_canonical :
    (Initramfs.parse buf1 = .ok ⟨[.Parsed ⟨[trailerFile]⟩, .Parsed ⟨[]⟩]⟩
      ∧ Initramfs.write ⟨[.Parsed ⟨[trailerFile]⟩, .Parsed ⟨[]⟩]⟩ [] = buf1)
    ∧ (Initramfs.parse buf2
        = .ok ⟨[.Parsed ⟨[trailerFile]⟩, .Parsed ⟨[trailerFile]⟩, .Parsed ⟨[]⟩]⟩
      ∧ Initramfs.write
          ⟨[.Parsed ⟨[trailerFile]⟩, .Parsed ⟨[trailerFile]⟩, .Parsed ⟨[]⟩]⟩ [] = buf2) :=
  ⟨⟨initramfs_parse_buf1, initramfs_write_buf1⟩,
   ⟨initramfs_parse_buf2, initramfs_write_buf2⟩⟩

/-- C1 (counterexample): the all-zero 4-byte buffer parses successfully
(into one empty parsed archive), but serializing the result produces the
empty buffer, not the original — refuting the unrestricted round-trip
law. -/
theorem C1_counterexample :
    Initramfs.parse [0, 0, 0, 0] = .ok ⟨[.Parsed ⟨[]⟩]⟩
    ∧ Initramfs.write ⟨[.Parsed ⟨[]⟩]⟩ [] = []
    ∧ ([] : List Nat) ≠ [0, 0, 0, 0] :=
  ⟨initramfs_parse_zeros4, rfl, by decide⟩

/-- C9 (amended): an archive containing only the trailer record
serializes to exactly one 110-byte header, the name `TRAILER!!!` plus its
null terminator, 3 zero padding bytes to the 4-byte boundary, no payload,
and zero padding to 4096 bytes total; `Archive::parse` of that buffer
yields one archive with exactly one record (ending at offset 124), while
`Initramfs::parse` yields that archive plus a trailing empty parsed
archive (from consuming the zero padding). -/
theorem C9_single_empty_archive :
    Archive.add_trailer Archive.new = .ok ⟨[trailerFile]⟩
    ∧ Archive.write ⟨[trailerFile]⟩ []
      = (RawCpioHeader.write (CpioHeader.to_cpio_header trailerFile.header) []
          ++ (trailerBytes ++ [0]) ++ List.replicate 3 0) ++ List.replicate 3972 0
    ∧ (RawCpioHeader.write (CpioHeader.to_cpio_header trailerFile.header) []).length = 110
    ∧ (Archive.write ⟨[trailerFile]⟩ []).length = 4096
    ∧ Archive.parse (Archive.write ⟨[trailerFile]⟩ []) 0 = .ok (⟨[trailerFile]⟩, 124)
    ∧ Initramfs.parse (Archive.write ⟨[trailerFile]⟩ [])
      = .ok ⟨[.Parsed ⟨[trailerFile]⟩, .Parsed ⟨[]⟩]⟩ := by
  refine ⟨by decide, ?_, rawHeader_write_length, buf1_length, archive_parse_buf1,
    initramfs_parse_buf1⟩
  rw [show Archive.write ⟨[trailerFile]⟩ [] = buf1 from rfl, buf1_eq, trailerRecord_struct]

/-- C9 (counterexample): `Initramfs::parse` of the 4096-byte single-
trailer image yields two archives, not one: the zero padding after the
trailer is skipped and an extra empty archive is appended. -/
theorem C9_counterexample :
    Initramfs.parse (Archive.write ⟨[trailerFile]⟩ [])
      = .ok ⟨[.Parsed ⟨[trailerFile]⟩, .Parsed ⟨[]⟩]⟩
    ∧ ([MaybeRawArchive.Parsed ⟨[trailerFile]⟩, .Parsed ⟨[]⟩]).length ≠ 1 :=
  ⟨initramfs_parse_buf1, by decide⟩

/-- C10: `Archive::parse` at an index at or past the end of the buffer
returns `Ok` with an archive of zero records (not an error); and whenever
the `Initramfs::parse` loop (which starts as `parseLoop data 0 []`)
stands before a buffer tail that is entirely zero bytes, it succeeds and
appends exactly one extra parsed archive with zero records. -/
theorem C10_trailing_zeroes :
    (∀ (data : List Nat) (index : Nat), data.length ≤ index →
      Archive.parse data index = .ok (⟨[]⟩, index))
    ∧ (∀ (data : List Nat) (index : Nat) (acc : List MaybeRawArchive),
        index < data.length →
        (∀ j, index ≤ j → j < data.length → data.get? j = some 0) →
        Initramfs.parseLoop data index acc = .ok ⟨acc ++ [.Parsed ⟨[]⟩]⟩)
    ∧ (∀ data : List Nat, Initramfs.parse data = Initramfs.parseLoop data 0 []) :=
  ⟨fun _ _ h => Archive.parse_at_end h,
   fun _ _ acc h1 hz => Initramfs.parseLoop_zeros acc h1 hz,
   fun _ => rfl⟩

/-- C10 (witness): `Archive::parse` of a 3-byte buffer at index 5 yields
an empty archive, and the parse loop over an all-zero 2-byte buffer
appends exactly one empty parsed archive. -/
theorem C10_witness :
    Archive.parse [1, 2, 3] 5 = .ok (⟨[]⟩, 5)
    ∧ Initramfs.parseLoop [0, 0] 0 [] = .ok ⟨[.Parsed ⟨[]⟩]⟩ :=
  ⟨C10_trailing_zeroes.1 [1, 2, 3] 5 (by decide),
   C10_trailing_zeroes.2.1 [0, 0] 0 [] (by decide)
     (by intro j hj1 hj2
         have hj : j < 2 := by simpa using hj2
         interval_cases j <;> rfl)⟩

/-- C5 (amended): only `Archive::add_file` enforces the trailer
precondition — for every archive whose last record is the trailer,
`add_file` panics for any file; `add_trailer` performs no such check and
unconditionally appends a fresh trailer record. -/
theorem C5_trailer_precondition :
    (∀ (a : Archive) (f lf : File), a.files.getLast? = some lf →
      lf.filename = trailerBytes → Archive.add_file a f = .panic)
    ∧ (∀ a : Archive, Archive.add_trailer a = .ok ⟨a.files ++ [trailerFile]⟩) := by
  constructor
  · intro a f lf hlast hname
    unfold Archive.add_file
    simp only [hlast]
    rw [if_pos hname]
  · intro a
    unfold Archive.add_trailer
    rw [File.new_trailer]
    rfl

/-- C5 (witness): `add_file` on an archive already ending in the trailer
record panics. -/
theorem C5_witness : Archive.add_file ⟨[trailerFile]⟩ trailerFile = .panic :=
  C5_trailer_precondition.1 ⟨[trailerFile]⟩ trailerFile trailerFile rfl rfl

/-- C5 (counterexample): appending via `add_trailer` after a trailer has
already been appended is *not* rejected — it returns normally with a
second trailer record, refuting the claim that every append operation of
the builder enforces the precondition. -/
theorem C5_counterexample :
    Archive.add_trailer ⟨[trailerFile]⟩ = .ok ⟨[trailerFile, trailerFile]⟩ := by decide

/-- C7 (amended): `Archive::add_file` appends the record with its `ino`
reassigned to the current record count (overriding the caller's value);
`add_trailer` performs no such reassignment (see the counterexample). -/
theorem C7_ino_reassignment :
    ∀ (a : Archive) (f : File) (a' : Archive),
      Archive.add_file a f = .ok a' →
      a' = ⟨a.files ++ [⟨{ f.header with ino := a.files.length }, f.filename, f.data⟩]⟩ := by
  intro a f a' h
  unfold Archive.add_file at h
  split at h
  · split at h
    · simp at h
    · rw [PResult.ok.injEq] at h
      exact h.symm
  · rw [PResult.ok.injEq] at h
    exact h.symm

/-- C7 (witness): adding a file with caller-set `ino = 7` to an empty
archive stores it with `ino = 0`. -/
theorem C7_witness :
    (⟨[⟨⟨.WithoutChecksum, 0, 0o100644, 0, 0, 0, 0, 0, 0, 1, 0, 0, 2, 0⟩,
        [97], []⟩]⟩ : Archive)
      = ⟨[] ++ [⟨{ c7FileA.header with ino := ([] : List File).length },
        c7FileA.filename, c7FileA.data⟩]⟩ :=
  C7_ino_reassignment ⟨[]⟩ c7FileA _ (by decide)

/-- C7 (counterexample): building an archive with `add_file`, `add_file`,
`add_trailer` yields ino sequence `[0, 1, 0]`, not `[0, 1, 2]`: the
trailer record appended by `add_trailer` does not get its `ino`
reassigned to the record count. -/
theorem C7_counterexample :
    ((Archive.add_file ⟨[]⟩ c7FileA).bind fun a =>
      (Archive.add_file a c7FileB).bind fun a => Archive.add_trailer a)
      = .ok ⟨[⟨{ c7FileA.header with ino := 0 }, [97], []⟩,
              ⟨{ c7FileB.header with ino := 1 }, [98], []⟩, trailerFile]⟩
    ∧ ([⟨{ c7FileA.header with ino := 0 }, [97], []⟩,
        ⟨{ c7FileB.header with ino := 1 }, [98], []⟩,
        trailerFile] : List File).map (fun f => f.header.ino) = [0, 1, 0]
    ∧ ([0, 1, 0] : List Nat) ≠ [0, 1, 2] := by
  refine ⟨by decide, by decide, by decide⟩

/-- C2 (amended): the alignment step computes the next multiple-of-4
offset `≥ index`.  When that offset lies within the buffer, it fails with
`InvalidAlign` naming the first non-zero byte among positions
`index ≤ j < offset` and succeeds when all of them are zero; when the
offset lies past the end of the buffer, the Rust range lookup yields
`None` and the function succeeds *without checking any byte* (see the
counterexample). -/
theorem C2_align_check :
    ∀ (data : List Nat) (index : Nat),
      (index ≤ 4 * ((index + 3) / 4) ∧ 4 * ((index + 3) / 4) % 4 = 0
        ∧ 4 * ((index + 3) / 4) < index + 4)
      ∧ (4 * ((index + 3) / 4) ≤ data.length →
          ((∀ j, index ≤ j → j < 4 * ((index + 3) / 4) → data.get? j = some 0) →
            parse_align_to_4 data index = .ok (4 * ((index + 3) / 4)))
          ∧ (∀ j v, index ≤ j → j < 4 * ((index + 3) / 4) → data.get? j = some v →
              v ≠ 0 → (∀ k, index ≤ k → k < j → data.get? k = some 0) →
              parse_align_to_4 data index = .error (.invalidAlign j v)))
      ∧ (data.length < 4 * ((index + 3) / 4) →
          parse_align_to_4 data index = .ok (4 * ((index + 3) / 4))) := by
  intro data index
  refine ⟨⟨by omega, by omega, by omega⟩, fun hle => ⟨?_, ?_⟩, fun hgt => ?_⟩
  · intro hz
    exact parse_align_to_4_ok_of_zeros rfl hle hz
  · intro j v hj1 hj2 hget hv hzero
    exact parse_align_to_4_err_of_nonzero rfl hle hj1 hj2 hget hv hzero
  · exact parse_align_to_4_oob hgt

/-- C2 (witness): aligning `[0, 5, 0, 0]` from index 1 fails naming the
non-zero padding byte 5 at absolute index 1. -/
theorem C2_witness :
    parse_align_to_4 [0, 5, 0, 0] 1 = .error (.invalidAlign 1 5) :=
  ((C2_align_check [0, 5, 0, 0] 1).2.1 (by decide)).2 1 5 (by decide) (by decide)
    (by decide) (by decide) (fun k hk1 hk2 => absurd (lt_of_le_of_lt hk1 hk2)
      (lt_irrefl 1))

/-- C2 (counterexample): in `[0, 0, 7]` from index 1 the aligned offset
is 4, past the end of the 3-byte buffer, so the function returns `Ok 4`
even though the buffer byte at index 2 — strictly between index 1 and the
aligned offset 4 — is the non-zero value 7, where the claim demands an
`InvalidAlign` failure. -/
theorem C2_counterexample :
    parse_align_to_4 [0, 0, 7] 1 = .ok 4
    ∧ [0, 0, 7].get? 2 = some 7 ∧ 1 ≤ 2 ∧ 2 < 4 ∧ (7 : Nat) ≠ 0 := by decide

/-- C3: in `File::parse`, once steps (a)-(h) have produced a header, a
filename and a payload, the computed checksum is the sum of the payload
bytes modulo 2^32; a checksum-required (070702) header succeeds exactly
when the stored `chksum` equals that sum and otherwise fails with
`InvalidChecksum(stored, computed)`, and a checksum-not-required (070701)
header succeeds exactly when the stored `chksum` is zero and otherwise
fails with `InvalidChecksumNotZero(stored)`. -/
theorem C3_checksum_enforcement :
    ∀ (data : List Nat) (index : Nat) (header : CpioHeader)
      (filename fdata : List Nat) (idx : Nat),
      File.parseRaw data index = .ok (header, filename, fdata, idx) →
      (header.magic = .WithChecksum →
        (header.chksum = fdata.sum % 4294967296 →
          File.parse data index = .ok (⟨header, filename, fdata⟩, idx))
        ∧ (header.chksum ≠ fdata.sum % 4294967296 →
          File.parse data index
            = .error (.invalidChecksum header.chksum (fdata.sum % 4294967296))))
      ∧ (header.magic = .WithoutChecksum →
        (header.chksum = 0 →
          File.parse data index = .ok (⟨header, filename, fdata⟩, idx))
        ∧ (header.chksum ≠ 0 →
          File.parse data index = .error (.invalidChecksumNotZero header.chksum))) := by
  intro data index header filename fdata idx hraw
  have hfold : fdata.foldl (fun c b => (c + b) % 4294967296) 0
      = fdata.sum % 4294967296 := by
    rw [checksum_foldl_eq fdata 0 (by norm_num), Nat.zero_add]
  unfold File.parse
  rw [hraw]
  constructor
  · intro hmagic
    constructor
    · intro heq
      simp only [PResult.bind, hmagic, hfold]
      rw [if_neg (by omega)]
    · intro hne
      simp only [PResult.bind, hmagic, hfold]
      rw [if_pos hne]
  · intro hmagic
    constructor
    · intro heq
      simp only [PResult.bind, hmagic]
      rw [if_neg (by omega)]
    · intro hne
      simp only [PResult.bind, hmagic]
      rw [if_pos hne]

/-- C3 (witness): parsing the serialized trailer record (a 070701 header
with stored checksum 0 and empty payload) succeeds. -/
theorem C3_witness :
    File.parse trailerRecord 0 = .ok (⟨trailerFile.header, trailerBytes, []⟩, 124) :=
  ((C3_checksum_enforcement trailerRecord 0 trailerFile.header trailerBytes [] 124
    (by decide)).2 rfl).1 rfl

/-- C4: the hex codec laws — decode after encode is the identity on all
`u32` values; encode always produces exactly 8 lowercase hex bytes; for 8
valid hex bytes decode succeeds and re-encoding yields the lowercase
canonical form; and any invalid byte makes decode fail with `InvalidHex`
carrying the field name and the original 8 bytes. -/
theorem C4_hex_codec :
    (∀ (p : String) (v : Nat), v < 4294967296 →
      parse_hex_be_u32 p (to_hex_be_u32 v) = .ok v)
    ∧ (∀ v : Nat, (to_hex_be_u32 v).length = 8
        ∧ (v < 4294967296 →
            ∀ b ∈ to_hex_be_u32 v, (48 ≤ b ∧ b ≤ 57) ∨ (97 ≤ b ∧ b ≤ 102)))
    ∧ (∀ (p : String) (b1 b2 b3 b4 b5 b6 b7 b8 : Nat),
        isHexByte b1 = true → isHexByte b2 = true → isHexByte b3 = true →
        isHexByte b4 = true → isHexByte b5 = true → isHexByte b6 = true →
        isHexByte b7 = true → isHexByte b8 = true →
        ∃ v, parse_hex_be_u32 p [b1, b2, b3, b4, b5, b6, b7, b8] = .ok v
          ∧ to_hex_be_u32 v = [lowerHex b1, lowerHex b2, lowerHex b3, lowerHex b4,
              lowerHex b5, lowerHex b6, lowerHex b7, lowerHex b8])
    ∧ (∀ (p : String) (b1 b2 b3 b4 b5 b6 b7 b8 : Nat),
        ¬(isHexByte b1 = true ∧ isHexByte b2 = true ∧ isHexByte b3 = true
          ∧ isHexByte b4 = true ∧ isHexByte b5 = true ∧ isHexByte b6 = true
          ∧ isHexByte b7 = true ∧ isHexByte b8 = true) →
        parse_hex_be_u32 p [b1, b2, b3, b4, b5, b6, b7, b8]
          = .error (.invalidHex p [b1, b2, b3, b4, b5, b6, b7, b8])) := by
  refine ⟨fun p v hv => parse_hex_to_hex p hv,
    fun v => ⟨rfl, fun hv => to_hex_lower hv⟩,
    ?_,
    fun p b1 b2 b3 b4 b5 b6 b7 b8 h => parse_hex_invalid p h⟩
  intro p b1 b2 b3 b4 b5 b6 b7 b8 h1 h2 h3 h4 h5 h6 h7 h8
  exact ⟨_, parse_hex_valid p h1 h2 h3 h4 h5 h6 h7 h8,
    to_hex_of_valid h1 h2 h3 h4 h5 h6 h7 h8⟩

/-- C4 (witness): decode of encode at `0x12345678`, and decode/re-encode
of the mixed-case input `"0a3FbC19"`. -/
theorem C4_witness :
    parse_hex_be_u32 "ino" (to_hex_be_u32 305419896) = .ok 305419896
    ∧ parse_hex_be_u32 "mode" [48, 55, 48, 55, 48, 71, 48, 48]
      = .error (.invalidHex "mode" [48, 55, 48, 55, 48, 71, 48, 48]) := by
  constructor
  · exact C4_hex_codec.1 "ino" 305419896 (by norm_num)
  · exact C4_hex_codec.2.2.2 "mode" 48 55 48 55 48 71 48 48 (by decide)

/-- A file record whose header declares `namesize = 5` although its
filename is the 10-byte `TRAILER!!!` (so `10 + 1 ≠ 5`). -/
def c6File : File :=
  ⟨⟨.WithoutChecksum, 0, 0o100644, 0, 0, 0, 0, 0, 0, 1, 0, 0, 5, 0⟩, trailerBytes, []⟩

/-- The serialized bytes of `c6File`. -/
def c6Buf : List Nat := File.write c6File []

/-- C6: every record built by the constructor satisfies
`namesize = filename length + 1` and `filesize = data length`; and when
`File::parse` reaches the filename step with a collected filename whose
length + 1 differs from the header's declared `namesize`, it fails with
`InvalidFilenameLength(collected + 1, declared)`. -/
theorem C6_filename_namesize :
    (∀ (filename data : List Nat) (file : File),
      File.new filename data = .ok file →
      file.header.namesize = filename.length + 1
        ∧ file.header.filesize = data.length)
    ∧ (∀ (data : List Nat) (index i1 : Nat) (arr : List Nat) (header : CpioHeader),
        parse_align_to_4 data index = .ok i1 →
        listSlice data i1 (i1 + 110) = some arr →
        CpioHeader.parse (RawCpioHeader.new arr) = .ok header →
        ((data.drop (i1 + 110)).takeWhile (fun b => b ≠ 0)).length + 1
          ≠ header.namesize →
        File.parseRaw data index = .error
          (.invalidFilenameLength
            (((data.drop (i1 + 110)).takeWhile (fun b => b ≠ 0)).length + 1)
            header.namesize)) := by
  constructor
  · intro filename data file h
    unfold File.new at h
    split at h
    · simp at h
    · rw [PResult.ok.injEq] at h
      rw [← h]
      exact ⟨rfl, rfl⟩
  · intro data index i1 arr header halign hslice hheader hmis
    have hle : i1 + 110 ≤ data.length := (listSlice_le hslice).2.1
    unfold File.parseRaw
    rw [halign]
    simp only [PResult.bind]
    simp only [hslice]
    simp only [hheader, PResult.bind]
    rw [if_pos hle]
    rw [if_pos hmis]

/-- C6 (witness): the constructor invariant at `File::new("a", [])`, and
the `InvalidFilenameLength(11, 5)` failure on the serialized bytes of a
record whose header declares `namesize = 5` under a 10-byte filename. -/
theorem C6_witness :
    ((⟨⟨.WithoutChecksum, 0, 0o100644, 0, 0, 0, 0, 0, 0, 1, 0, 0, 2, 0⟩,
        [97], []⟩ : File).header.namesize = ([97] : List Nat).length + 1
      ∧ (⟨⟨.WithoutChecksum, 0, 0o100644, 0, 0, 0, 0, 0, 0, 1, 0, 0, 2, 0⟩,
        [97], []⟩ : File).header.filesize = ([] : List Nat).length)
    ∧ File.parseRaw c6Buf 0 = .error (.invalidFilenameLength 11 5) := by
  constructor
  · exact C6_filename_namesize.1 [97] [] _ (by decide)
  · exact C6_filename_namesize.2 c6Buf 0 0 ((c6Buf.drop 0).take (0 + 110 - 0))
      c6File.header (by decide) (by decide) (by decide) (by decide)

/-- C8: the structured-header parse maps magic `"070701"` to the
checksum-not-required variant and `"070702"` to the checksum-required
variant, fails with `InvalidCpioHeaderMagic` carrying the magic bytes on
anything else, and in particular a buffer whose record starts with
`"070703"` fails with `InvalidCpioHeaderMagic([0x30,0x37,0x30,0x37,0x30,0x33])`. -/
theorem C8_magic_decoding :
    (∀ raw : RawCpioHeader, raw.magic ≠ magicWithoutChecksum →
      raw.magic ≠ magicWithChecksum →
      CpioHeader.parse raw = .error (.invalidCpioHeaderMagic raw.magic))
    ∧ (∀ (raw : RawCpioHeader) (h : CpioHeader), CpioHeader.parse raw = .ok h →
        (raw.magic = magicWithoutChecksum ∧ h.magic = .WithoutChecksum)
        ∨ (raw.magic = magicWithChecksum ∧ h.magic = .WithChecksum))
    ∧ File.parse buf070703 0
      = .error (.invalidCpioHeaderMagic [48, 55, 48, 55, 48, 51]) :=
  ⟨fun _ h1 h2 => CpioHeader.parse_bad_magic h1 h2,
   fun _ _ hp => CpioHeader.parse_ok_magic hp, by decide⟩

/-- C8 (witness): the raw header sliced from the `"070703"` buffer fails
with `InvalidCpioHeaderMagic` carrying its 6 magic bytes. -/
theorem C8_witness :
    CpioHeader.parse (RawCpioHeader.new buf070703)
      = .error (.invalidCpioHeaderMagic (RawCpioHeader.new buf070703).magic) :=
  C8_magic_decoding.1 (RawCpioHeader.new buf070703) (by decide) (by decide)
